import Mathlib

/-!
Verification development for the OpenMS `PeakPickerRapid` header
(`src/include/OpenMS/TRANSFORMATIONS/RAW2PEAK/PeakPickerRapid.h`).

The C++ code computes over `DoubleReal` (IEEE-754 double).  We embed a
double as an exact real number together with the IEEE special values
`+inf`, `-inf` and `NaN`; rounding and overflow of finite operations are
not modelled (finite arithmetic is exact), but the special-value
propagation rules of IEEE-754 / C99 `<cmath>` are modelled faithfully,
since the code's validity guard (`area != infinity`) depends on them.
-/

namespace OpenMS

open Classical

/-- IEEE-754-style double value: an exact real, `+inf`, `-inf` or `NaN`.
Negative zero is not distinguished from zero (the code never produces a
relevant `-0.0`). -/
inductive FP where
  | finite (val : ℝ)
  | pinf
  | ninf
  | nan

/-- IEEE negation. -/
def FP.neg : FP → FP
  | .finite a => .finite (-a)
  | .pinf => .ninf
  | .ninf => .pinf
  | .nan => .nan

/-- IEEE addition on doubles (exact on finite operands). -/
def FP.add : FP → FP → FP
  | .nan, _ => .nan
  | _, .nan => .nan
  | .finite a, .finite b => .finite (a + b)
  | .finite _, .pinf => .pinf
  | .finite _, .ninf => .ninf
  | .pinf, .finite _ => .pinf
  | .ninf, .finite _ => .ninf
  | .pinf, .pinf => .pinf
  | .ninf, .ninf => .ninf
  | .pinf, .ninf => .nan
  | .ninf, .pinf => .nan

/-- IEEE subtraction, as addition of the negation. -/
def FP.sub (a b : FP) : FP := FP.add a (FP.neg b)

/-- IEEE multiplication on doubles (exact on finite operands);
`0 * inf = NaN`. -/
noncomputable def FP.mul : FP → FP → FP
  | .nan, _ => .nan
  | _, .nan => .nan
  | .finite a, .finite b => .finite (a * b)
  | .finite a, .pinf => if 0 < a then .pinf else if a < 0 then .ninf else .nan
  | .pinf, .finite a => if 0 < a then .pinf else if a < 0 then .ninf else .nan
  | .finite a, .ninf => if 0 < a then .ninf else if a < 0 then .pinf else .nan
  | .ninf, .finite a => if 0 < a then .ninf else if a < 0 then .pinf else .nan
  | .pinf, .pinf => .pinf
  | .pinf, .ninf => .ninf
  | .ninf, .pinf => .ninf
  | .ninf, .ninf => .pinf

/-- IEEE division on doubles (exact on finite operands); `x/0` is a signed
infinity for `x ≠ 0` (the zero is `+0` in this model), `0/0 = NaN`,
`inf/inf = NaN`, `x/inf = 0`. -/
noncomputable def FP.div : FP → FP → FP
  | .nan, _ => .nan
  | _, .nan => .nan
  | .finite a, .finite b =>
      if b = 0 then (if a = 0 then .nan else if 0 < a then .pinf else .ninf)
      else .finite (a / b)
  | .finite _, .pinf => .finite 0
  | .finite _, .ninf => .finite 0
  | .pinf, .finite b => if 0 ≤ b then .pinf else .ninf
  | .ninf, .finite b => if 0 ≤ b then .ninf else .pinf
  | .pinf, .pinf => .nan
  | .pinf, .ninf => .nan
  | .ninf, .pinf => .nan
  | .ninf, .ninf => .nan

/-- C99 `fabs`. -/
def FP.fabs : FP → FP
  | .finite a => .finite |a|
  | .pinf => .pinf
  | .ninf => .pinf
  | .nan => .nan

/-- C99 `sqrt`: `NaN` on negative arguments. -/
noncomputable def FP.sqrt : FP → FP
  | .finite a => if 0 ≤ a then .finite (Real.sqrt a) else .nan
  | .pinf => .pinf
  | .ninf => .nan
  | .nan => .nan

/-- C99 `log`: `log 0 = -inf`, `NaN` on negative arguments. -/
noncomputable def FP.log : FP → FP
  | .finite a => if 0 < a then .finite (Real.log a) else if a = 0 then .ninf else .nan
  | .pinf => .pinf
  | .ninf => .nan
  | .nan => .nan

/-- C99 `exp`. -/
noncomputable def FP.exp : FP → FP
  | .finite a => .finite (Real.exp a)
  | .pinf => .pinf
  | .ninf => .finite 0
  | .nan => .nan

/-- C99 `pow`.  For a positive finite base and finite exponent this is the
exact real power `a ^ e`; the remaining rows follow the C99 special-case
table (`pow(x, 0) = 1` for every `x`, `pow(1, y) = 1` for every `y`,
negative finite base only with an integral exponent, infinities by
magnitude of the base / sign of the exponent). -/
noncomputable def FP.pow : FP → FP → FP
  | .finite a, .finite e =>
      if 0 < a then .finite (a ^ e)
      else if a = 0 then (if 0 < e then .finite 0 else if e = 0 then .finite 1 else .pinf)
      else if ∃ n : ℤ, (n : ℝ) = e then .finite (a ^ (⌊e⌋ : ℤ)) else .nan
  | .finite a, .pinf =>
      if a = 1 ∨ a = -1 then .finite 1 else if -1 < a ∧ a < 1 then .finite 0 else .pinf
  | .finite a, .ninf =>
      if a = 1 ∨ a = -1 then .finite 1 else if -1 < a ∧ a < 1 then .pinf else .finite 0
  | .finite a, .nan => if a = 1 then .finite 1 else .nan
  | .pinf, .finite e => if 0 < e then .pinf else if e = 0 then .finite 1 else .finite 0
  | .ninf, .finite e =>
      if e = 0 then .finite 1
      else if 0 < e then (if (∃ n : ℤ, (n : ℝ) = e) ∧ ⌊e⌋ % 2 = 1 then .ninf else .pinf)
      else .finite 0
  | .pinf, .pinf => .pinf
  | .pinf, .ninf => .finite 0
  | .ninf, .pinf => .pinf
  | .ninf, .ninf => .finite 0
  | .pinf, .nan => .nan
  | .ninf, .nan => .nan
  | .nan, .finite e => if e = 0 then .finite 1 else .nan
  | .nan, .pinf => .nan
  | .nan, .ninf => .nan
  | .nan, .nan => .nan

/-- IEEE ordered comparison `<` as a proposition: comparisons involving
`NaN` are false. -/
def FP.Lt : FP → FP → Prop
  | .finite a, .finite b => a < b
  | .finite _, .pinf => True
  | .ninf, .finite _ => True
  | .ninf, .pinf => True
  | _, _ => False

/-- IEEE equality comparison (`==`): `NaN` compares unequal to everything,
including itself. -/
noncomputable def FP.ieeeEq : FP → FP → Bool
  | .finite a, .finite b => decide (a = b)
  | .pinf, .pinf => true
  | .ninf, .ninf => true
  | _, _ => false

/-- IEEE inequality comparison (`!=`). -/
noncomputable def FP.ieeeNe (a b : FP) : Bool := !(FP.ieeeEq a b)

/-- A raw or picked sample of a spectrum: the template parameter `PeakType`
of the header, exposing `getMZ`/`getIntensity` (and settable on output
peaks).  Both coordinates are doubles. -/
structure FPPeak where
  mz : FP
  intensity : FP

/-- The `type_` tag of `SpectrumSettings` (only the two values the header
mentions matter here). -/
inductive SpectrumType where
  | UNKNOWN
  | PEAKS
  | RAWDATA

/-- An `MSSpectrum`: its sample sequence plus the spectrum-level metadata
the header touches.  `settings` stands for the remaining (opaque)
`SpectrumSettings` payload and `metaInfo` for the `MetaInfoInterface`
annotations; both are modelled as opaque tokens since `pick` only copies
them wholesale. -/
structure MSSpectrum where
  rt : ℝ
  msLevel : ℕ
  name : String
  settings : ℕ
  metaInfo : ℕ
  stype : SpectrumType
  peaks : List FPPeak

/-- An `MSExperiment`: its spectra plus the opaque `ExperimentalSettings`
payload the driver copies wholesale. -/
structure MSExperiment where
  expSettings : ℕ
  spectra : List MSSpectrum

/-- The resolved parameter store `param_` of `DefaultParamHandler`: the
header reads it only through `param_.getValue(key)` on the two string
keys `"intensity_type"` and `"ms1_only"`; we model it as the map from
keys to string values. -/
def Param : Type := String → String

/-- Model of `DataValue::toBool` on a stored string parameter value. -/
def toBool (s : String) : Bool := s == "true"

/-- Result of `computeTPG`: the three out-parameters `mu`, `sigma`,
`area` and the returned `bool`. -/
structure TPGResult where
  mu : FP
  sigma : FP
  area : FP
  valid : Bool

/-- Transcription of `PeakPickerRapid::computeTPG` (header lines 87–102),
operation by operation with C++ precedence:

  denom = log(pow(y1, x3-x2) * pow(y2, x1-x3) * pow(y3, x2-x1))
  mu    = 0.5 * (log(pow(y1, x3*x3-x2*x2) * pow(y2, x1*x1-x3*x3) * pow(y3, x2*x2-x1*x1)) / denom)
  sigma = sqrt(0.5 * ((x1-x3)*(x2-x1)*(x3-x2)) / denom)
  area  = sqrt(2*M_PI*sigma*sigma) * pow(y1*y2*y3, 1.0/3.0)
            * exp(((x1-mu)*(x1-mu) + (x2-mu)*(x2-mu) + (x3-mu)*(x3-mu)) / (6*sigma*sigma))
  return area != +infinity

`M_PI` (the double approximation of π) is modelled as the exact `π`. -/
noncomputable def computeTPG (p1 p2 p3 : FPPeak) : TPGResult :=
  let x1 := p1.mz; let y1 := p1.intensity
  let x2 := p2.mz; let y2 := p2.intensity
  let x3 := p3.mz; let y3 := p3.intensity
  let denom := FP.log (FP.mul (FP.mul (FP.pow y1 (FP.sub x3 x2)) (FP.pow y2 (FP.sub x1 x3)))
      (FP.pow y3 (FP.sub x2 x1)))
  let mu := FP.mul (.finite (1/2)) (FP.div (FP.log (FP.mul
      (FP.mul (FP.pow y1 (FP.sub (FP.mul x3 x3) (FP.mul x2 x2)))
              (FP.pow y2 (FP.sub (FP.mul x1 x1) (FP.mul x3 x3))))
      (FP.pow y3 (FP.sub (FP.mul x2 x2) (FP.mul x1 x1))))) denom)
  let sigma := FP.sqrt (FP.div (FP.mul (.finite (1/2))
      (FP.mul (FP.mul (FP.sub x1 x3) (FP.sub x2 x1)) (FP.sub x3 x2))) denom)
  let area := FP.mul (FP.mul
      (FP.sqrt (FP.mul (FP.mul (FP.mul (.finite 2) (.finite Real.pi)) sigma) sigma))
      (FP.pow (FP.mul (FP.mul y1 y2) y3) (FP.div (.finite 1) (.finite 3))))
      (FP.exp (FP.div
        (FP.add (FP.add (FP.mul (FP.sub x1 mu) (FP.sub x1 mu))
                        (FP.mul (FP.sub x2 mu) (FP.sub x2 mu)))
                (FP.mul (FP.sub x3 mu) (FP.sub x3 mu)))
        (FP.mul (FP.mul (.finite 6) sigma) sigma)))
  ⟨mu, sigma, area, FP.ieeeNe area .pinf⟩

/-- Transcription of `PeakPickerRapid::computeScaledGaussian` (header lines 104–107):
`(area / sqrt(2*M_PI*sigma*sigma)) * exp(-((x-mu)*(x-mu)) / (2*sigma*sigma))`. -/
noncomputable def computeScaledGaussian (x mu sigma area : FP) : FP :=
  FP.mul
    (FP.div area (FP.sqrt (FP.mul (FP.mul (FP.mul (.finite 2) (.finite Real.pi)) sigma) sigma)))
    (FP.exp (FP.div (FP.neg (FP.mul (FP.sub x mu) (FP.sub x mu)))
      (FP.mul (FP.mul (.finite 2) sigma) sigma)))

/-- The candidate-acceptance condition of the scan loop (header lines
139–158), on the five window samples `input[i-2] .. input[i+2]`,
transcribed literally: the spacing variables, the ternary `min_spacing`,
and the conjunction of the `if` at line 149. -/
noncomputable def shapeAccept (l2 l1 c r1 r2 : FPPeak) : Prop :=
  let l1_to_central := FP.fabs (FP.sub c.mz l1.mz)
  let l2_to_l1 := FP.fabs (FP.sub l1.mz l2.mz)
  let central_to_r1 := FP.fabs (FP.sub r1.mz c.mz)
  let r1_to_r2 := FP.fabs (FP.sub r2.mz r1.mz)
  let min_spacing := if FP.Lt l1_to_central central_to_r1 then l1_to_central else central_to_r1
  FP.Lt (.finite 1) c.intensity ∧ FP.Lt (.finite 1) l1.intensity ∧
  FP.Lt (.finite 1) l2.intensity ∧ FP.Lt (.finite 1) r1.intensity ∧
  FP.Lt (.finite 1) r2.intensity ∧
  FP.Lt l1_to_central (FP.mul (.finite (3/2)) min_spacing) ∧
  FP.Lt l2_to_l1 (FP.mul (.finite (3/2)) min_spacing) ∧
  (FP.Lt l2.intensity l1.intensity ∧ FP.Lt l1.intensity c.intensity) ∧
  FP.Lt central_to_r1 (FP.mul (.finite (3/2)) min_spacing) ∧
  FP.Lt r1_to_r2 (FP.mul (.finite (3/2)) min_spacing) ∧
  (FP.Lt r2.intensity r1.intensity ∧ FP.Lt r1.intensity c.intensity)

/-- The loop bound `input.size() - 2` computed in `Size` (unsigned 64-bit)
arithmetic: for fewer than 2 samples the subtraction wraps around. -/
def sizeSub2 (n : ℕ) : ℕ := (n + 2 ^ 64 - 2) % 2 ^ 64

/-- The scan loop of `pick` (header lines 127–208).  `i` starts at 2; the
loop runs while `i < bound`.  Each iteration reads the five window
samples `input[i-2] .. input[i+2]` (an out-of-bounds read — possible when
`bound` wrapped around for tiny inputs — is undefined behaviour, modelled
as `none`), tests `shapeAccept`, on acceptance fits the inner triplet and
(only if the fit reports valid) emits one peak, then continues at `i + 2`
(the body sets `i = i + k - 1` with `k = 2` before the `++i`); on
rejection it continues at `i + 1`. -/
noncomputable def scan (ia : Bool) (s : List FPPeak) (bound : ℕ) (i : ℕ) :
    Option (List FPPeak) :=
  if i < bound then
    match s[i]?, s[i - 1]?, s[i + 1]?, s[i - 2]?, s[i + 2]? with
    | some c, some l1, some r1, some l2, some r2 =>
      if shapeAccept l2 l1 c r1 r2 then
        let r := computeTPG l1 c r1
        Option.map
          (fun rest =>
            (if r.valid then
              [({ mz := r.mu,
                  intensity := if ia then r.area else
                    computeScaledGaussian r.mu r.mu r.sigma r.area } : FPPeak)]
            else []) ++ rest)
          (scan ia s bound (i + 2))
      else scan ia s bound (i + 1)
    | _, _, _, _, _ => none
  else some []
termination_by bound - i
decreasing_by all_goals omega

/-- Transcription of `PeakPickerRapid::pick` (header lines 110–211): clear the output, copy
the spectrum-level metadata, set the type tag to `PEAKS`, resolve the
`intensity_type` option, and run the scan loop from `i = 2` with bound
`input.size() - 2` (unsigned). -/
noncomputable def pick (p : Param) (input : MSSpectrum) : Option MSSpectrum :=
  let intensity_type_area := p "intensity_type" == "peakarea"
  Option.map
    (fun pks =>
      { rt := input.rt, msLevel := input.msLevel, name := input.name,
        settings := input.settings, metaInfo := input.metaInfo,
        stype := SpectrumType.PEAKS, peaks := pks })
    (scan intensity_type_area input.peaks (sizeSub2 input.peaks.length) 2)

/-- Transcription of `PeakPickerRapid::pickExperiment` (header lines 216–247): clear the
output, copy the `ExperimentalSettings`, resolve `ms1_only` once, and for
each scan in order either pass it through unchanged (when `ms1_only` is
set and its MS level is not 1) or replace it with `pick` of it.  The
progress-logger calls are side-channel only and are not modelled. -/
noncomputable def pickExperiment (p : Param) (input : MSExperiment) : Option MSExperiment :=
  let ms1_only := toBool (p "ms1_only")
  Option.map (fun out => { expSettings := input.expSettings, spectra := out })
    (input.spectra.mapM (fun s =>
      if ms1_only && (s.msLevel != 1) then some s else pick p s))

/-- The acceptance condition as worded by the specification (§4.2 step 5)
on real-valued samples, each given as an (mz, intensity) pair: all five
intensities exceed 1.0; the four adjacent spacings are each strictly less
than 1.5 times `min_spacing`, the minimum of the left-of-center and
right-of-center spacings; and intensities ascend strictly toward the apex
on both flanks.  This is the spec side of the refinement claim C4, to be
compared with `shapeAccept`, which is transcribed from the code. -/
def specAccept (l2 l1 c r1 r2 : ℝ × ℝ) : Prop :=
  let leftOfCenter := |c.1 - l1.1|
  let leftLeft := |l1.1 - l2.1|
  let rightOfCenter := |r1.1 - c.1|
  let rightRight := |r2.1 - r1.1|
  let minSpacing := min leftOfCenter rightOfCenter
  (1 < l2.2 ∧ 1 < l1.2 ∧ 1 < c.2 ∧ 1 < r1.2 ∧ 1 < r2.2) ∧
  (leftOfCenter < 3 / 2 * minSpacing ∧ leftLeft < 3 / 2 * minSpacing ∧
    rightOfCenter < 3 / 2 * minSpacing ∧ rightRight < 3 / 2 * minSpacing) ∧
  (l2.2 < l1.2 ∧ l1.2 < c.2) ∧ (r2.2 < r1.2 ∧ r1.2 < c.2)

/-- The scaled Gaussian density `area / sqrt(2π·σ²) · exp(−(x−mu)²/(2σ²))`
over the reals (the function whose exact samples claim C7 feeds to the
fit, and the real-number meaning of `computeScaledGaussian`). -/
noncomputable def gaussAt (mu sigma area x : ℝ) : ℝ :=
  area / Real.sqrt (2 * Real.pi * sigma * sigma) *
    Real.exp (-((x - mu) * (x - mu)) / (2 * sigma * sigma))

/-- Real-number value of the `denom` intermediate of `computeTPG` when all
inputs are finite and the intensities are positive. -/
noncomputable def tpgDenom (x1 x2 x3 y1 y2 y3 : ℝ) : ℝ :=
  Real.log (y1 ^ (x3 - x2) * y2 ^ (x1 - x3) * y3 ^ (x2 - x1))

/-- Real-number value of the `mu` output of `computeTPG` on finite inputs. -/
noncomputable def tpgMu (x1 x2 x3 y1 y2 y3 : ℝ) : ℝ :=
  1 / 2 * (Real.log (y1 ^ (x3 * x3 - x2 * x2) * y2 ^ (x1 * x1 - x3 * x3) *
    y3 ^ (x2 * x2 - x1 * x1)) / tpgDenom x1 x2 x3 y1 y2 y3)

/-- Real-number value of the `sigma` output of `computeTPG` on finite
inputs (when the radicand is nonnegative). -/
noncomputable def tpgSigma (x1 x2 x3 y1 y2 y3 : ℝ) : ℝ :=
  Real.sqrt (1 / 2 * ((x1 - x3) * (x2 - x1) * (x3 - x2)) / tpgDenom x1 x2 x3 y1 y2 y3)

/-- Real-number value of the `area` output of `computeTPG` on finite
inputs (when the fit does not degenerate). -/
noncomputable def tpgArea (x1 x2 x3 y1 y2 y3 : ℝ) : ℝ :=
  Real.sqrt (2 * Real.pi * tpgSigma x1 x2 x3 y1 y2 y3 * tpgSigma x1 x2 x3 y1 y2 y3) *
    (y1 * y2 * y3) ^ ((1 : ℝ) / 3) *
    Real.exp (((x1 - tpgMu x1 x2 x3 y1 y2 y3) * (x1 - tpgMu x1 x2 x3 y1 y2 y3) +
        (x2 - tpgMu x1 x2 x3 y1 y2 y3) * (x2 - tpgMu x1 x2 x3 y1 y2 y3) +
        (x3 - tpgMu x1 x2 x3 y1 y2 y3) * (x3 - tpgMu x1 x2 x3 y1 y2 y3)) /
      (6 * tpgSigma x1 x2 x3 y1 y2 y3 * tpgSigma x1 x2 x3 y1 y2 y3))

/-- A parameter store resolving `intensity_type` to apex-height mode and
`ms1_only` to false. -/
def pDefault : Param := fun _ => "false"

/-- A parameter store agreeing with `pDefault` on the two keys the picker
reads but differing elsewhere. -/
def pOther : Param := fun k => if k == "signal_to_noise" then "3" else "false"

/-- A parameter store enabling `ms1_only` (and apex-height intensity). -/
def pMs1 : Param := fun k => if k == "ms1_only" then "true" else "false"

/-- A two-sample input spectrum tagged as raw data (concrete data for the
metadata claims). -/
noncomputable def specRaw : MSSpectrum :=
  { rt := 7, msLevel := 2, name := "scan one", settings := 3, metaInfo := 4,
    stype := SpectrumType.RAWDATA,
    peaks := [⟨.finite 100, .finite 5⟩, ⟨.finite 101, .finite 6⟩] }

/-- The spectrum `pick` produces from `specRaw`. -/
noncomputable def outRaw : MSSpectrum :=
  { rt := 7, msLevel := 2, name := "scan one", settings := 3, metaInfo := 4,
    stype := SpectrumType.PEAKS, peaks := [] }

/-- An input spectrum with no samples at all. -/
noncomputable def specEmpty : MSSpectrum :=
  { rt := 1, msLevel := 1, name := "empty scan", settings := 0, metaInfo := 0,
    stype := SpectrumType.RAWDATA, peaks := [] }

/-- A four-sample input spectrum. -/
noncomputable def specFour : MSSpectrum :=
  { rt := 2, msLevel := 1, name := "four", settings := 0, metaInfo := 0,
    stype := SpectrumType.RAWDATA,
    peaks := [⟨.finite 10, .finite 5⟩, ⟨.finite 11, .finite 9⟩,
              ⟨.finite 12, .finite 9⟩, ⟨.finite 13, .finite 5⟩] }

/-- The spectrum `pick` produces from `specFour`. -/
noncomputable def outFour : MSSpectrum :=
  { rt := 2, msLevel := 1, name := "four", settings := 0, metaInfo := 0,
    stype := SpectrumType.PEAKS, peaks := [] }

/-- A five-sample raw trace forming an acceptable peak core at index 2:
unit spacing and intensities 2 < 4 < 8 > 4 > 2. -/
noncomputable def fivePts : List FPPeak :=
  [⟨.finite 0, .finite 2⟩, ⟨.finite 1, .finite 4⟩, ⟨.finite 2, .finite 8⟩,
   ⟨.finite 3, .finite 4⟩, ⟨.finite 4, .finite 2⟩]

/-- An experiment holding one MS2 spectrum and one pickable MS1 spectrum. -/
noncomputable def expMixed : MSExperiment :=
  { expSettings := 5, spectra := [specRaw, specFour] }

/-- An experiment holding a single empty level-1 spectrum. -/
noncomputable def expBad : MSExperiment :=
  { expSettings := 6, spectra := [specEmpty] }

section FPSimp

@[simp] theorem FP.neg_finite (a : ℝ) : FP.neg (.finite a) = .finite (-a) := rfl

@[simp] theorem FP.add_finite (a b : ℝ) :
    FP.add (.finite a) (.finite b) = .finite (a + b) := rfl

@[simp] theorem FP.sub_finite (a b : ℝ) :
    FP.sub (.finite a) (.finite b) = .finite (a - b) := by
  simp [FP.sub, FP.add, sub_eq_add_neg]

@[simp] theorem FP.mul_finite (a b : ℝ) :
    FP.mul (.finite a) (.finite b) = .finite (a * b) := rfl

@[simp] theorem FP.mul_nan_left (a : FP) : FP.mul .nan a = .nan := by cases a <;> rfl

@[simp] theorem FP.mul_nan_right (a : FP) : FP.mul a .nan = .nan := by
  cases a <;> rfl

@[simp] theorem FP.add_nan_left (a : FP) : FP.add .nan a = .nan := by cases a <;> rfl

@[simp] theorem FP.add_nan_right (a : FP) : FP.add a .nan = .nan := by
  cases a <;> rfl

@[simp] theorem FP.sub_nan_left (a : FP) : FP.sub .nan a = .nan := by cases a <;> rfl

@[simp] theorem FP.sub_nan_right (a : FP) : FP.sub a .nan = .nan := by
  cases a <;> rfl

@[simp] theorem FP.div_nan_left (a : FP) : FP.div .nan a = .nan := by cases a <;> rfl

@[simp] theorem FP.div_nan_right (a : FP) : FP.div a .nan = .nan := by
  cases a <;> rfl

@[simp] theorem FP.sqrt_nan : FP.sqrt .nan = .nan := rfl

@[simp] theorem FP.sqrt_ninf : FP.sqrt .ninf = .nan := rfl

@[simp] theorem FP.exp_nan : FP.exp .nan = .nan := rfl

theorem FP.div_finite {b : ℝ} (hb : b ≠ 0) (a : ℝ) :
    FP.div (.finite a) (.finite b) = .finite (a / b) := by
  simp [FP.div, hb]

theorem FP.div_neg_zero {a : ℝ} (ha : a < 0) :
    FP.div (.finite a) (.finite 0) = .ninf := by
  simp [FP.div, ha.ne, not_lt.mpr ha.le]

theorem FP.div_zero_zero : FP.div (.finite 0) (.finite 0) = .nan := by
  simp [FP.div]

theorem FP.log_finite_pos {a : ℝ} (ha : 0 < a) :
    FP.log (.finite a) = .finite (Real.log a) := by
  simp [FP.log, ha]

theorem FP.sqrt_finite_nonneg {a : ℝ} (ha : 0 ≤ a) :
    FP.sqrt (.finite a) = .finite (Real.sqrt a) := by
  simp [FP.sqrt, ha]

@[simp] theorem FP.exp_finite (a : ℝ) : FP.exp (.finite a) = .finite (Real.exp a) := rfl

@[simp] theorem FP.fabs_finite (a : ℝ) : FP.fabs (.finite a) = .finite |a| := rfl

theorem FP.pow_finite_pos {a : ℝ} (ha : 0 < a) (e : ℝ) :
    FP.pow (.finite a) (.finite e) = .finite (a ^ e) := by
  simp [FP.pow, ha]

@[simp] theorem FP.Lt_finite (a b : ℝ) : FP.Lt (.finite a) (.finite b) ↔ a < b :=
  Iff.rfl

@[simp] theorem FP.ieeeNe_finite_pinf (a : ℝ) : FP.ieeeNe (.finite a) .pinf = true := rfl

@[simp] theorem FP.ieeeNe_nan_pinf : FP.ieeeNe .nan .pinf = true := rfl

@[simp] theorem FP.ieeeNe_ninf_pinf : FP.ieeeNe .ninf .pinf = true := rfl

@[simp] theorem FP.ieeeNe_pinf_pinf : FP.ieeeNe .pinf .pinf = false := rfl

end FPSimp

section ScanLemmas

variable {ia : Bool} {s : List FPPeak} {bound i : ℕ} {c l1 r1 l2 r2 : FPPeak}

/-- The scan loop returns immediately once the loop condition fails. -/
theorem scan_stop (h : ¬ i < bound) : scan ia s bound i = some [] := by
  rw [scan]
  simp [h]

/-- One accepted iteration of the scan loop: the inner triplet is fitted,
at most one peak is emitted, and the loop continues at `i + 2`. -/
theorem scan_accept (hlt : i < bound)
    (hc : s[i]? = some c) (hl1 : s[i - 1]? = some l1)
    (hr1 : s[i + 1]? = some r1) (hl2 : s[i - 2]? = some l2)
    (hr2 : s[i + 2]? = some r2) (hacc : shapeAccept l2 l1 c r1 r2) :
    scan ia s bound i =
      Option.map
        (fun rest =>
          (if (computeTPG l1 c r1).valid then
            [({ mz := (computeTPG l1 c r1).mu,
                intensity := if ia then (computeTPG l1 c r1).area else
                  computeScaledGaussian (computeTPG l1 c r1).mu (computeTPG l1 c r1).mu
                    (computeTPG l1 c r1).sigma (computeTPG l1 c r1).area } : FPPeak)]
          else []) ++ rest)
        (scan ia s bound (i + 2)) := by
  rw [scan]
  simp only [hlt, if_true, hc, hl1, hr1, hl2, hr2]
  rw [if_pos hacc]

/-- One rejected iteration of the scan loop: the loop continues at `i + 1`. -/
theorem scan_reject (hlt : i < bound)
    (hc : s[i]? = some c) (hl1 : s[i - 1]? = some l1)
    (hr1 : s[i + 1]? = some r1) (hl2 : s[i - 2]? = some l2)
    (hr2 : s[i + 2]? = some r2) (hacc : ¬ shapeAccept l2 l1 c r1 r2) :
    scan ia s bound i = scan ia s bound (i + 1) := by
  rw [scan]
  simp only [hlt, if_true, hc, hl1, hr1, hl2, hr2]
  rw [if_neg hacc]

/-- An in-loop iteration whose central sample read is already out of
bounds is undefined behaviour. -/
theorem scan_oob (hlt : i < bound) (hc : s[i]? = none) :
    scan ia s bound i = none := by
  rw [scan]
  simp [hlt, hc]

end ScanLemmas

section Evaluations

/-- Loop bound for a two-sample spectrum: `2 - 2 = 0`, no iteration. -/
theorem sizeSub2_two : sizeSub2 2 = 0 := by norm_num [sizeSub2]

/-- Loop bound for a four-sample spectrum: `4 - 2 = 2`, no iteration
(the loop starts at `i = 2`). -/
theorem sizeSub2_four : sizeSub2 4 = 2 := by norm_num [sizeSub2]

/-- Loop bound for an empty spectrum: the unsigned subtraction
`0 - 2` wraps around to `2^64 - 2`. -/
theorem sizeSub2_zero : sizeSub2 0 = 2 ^ 64 - 2 := by norm_num [sizeSub2]

/-- Concrete run of `pick` on the two-sample spectrum `specRaw`. -/
theorem pick_specRaw : pick pDefault specRaw = some outRaw := by
  have h : sizeSub2 specRaw.peaks.length = 0 := by
    simp [specRaw, sizeSub2]
  simp only [pick, h]
  rw [scan_stop (by omega)]
  rfl

/-- Concrete run of `pick` on the empty spectrum: the wrapped loop bound
lets the loop body read `input[2]` out of bounds. -/
theorem pick_empty_eval : pick pDefault specEmpty = none := by
  have h : sizeSub2 specEmpty.peaks.length = 2 ^ 64 - 2 := by
    simp [specEmpty, sizeSub2]
  simp only [pick, h]
  rw [scan_oob (by norm_num) rfl]
  rfl

/-- For a representable size of at least 2, the unsigned loop bound is
the plain subtraction. -/
theorem sizeSub2_eq {n : ℕ} (h2 : 2 ≤ n) (hlt : n < 2 ^ 64) : sizeSub2 n = n - 2 := by
  simp only [sizeSub2]
  omega

/-- The scan loop always completes (no out-of-bounds read) when the
bound leaves a 2-sample margin at the right end and the start index
leaves a 2-sample margin at the left end. -/
theorem scan_isSome (ia : Bool) (s : List FPPeak) (bound : ℕ)
    (hb : bound + 2 ≤ s.length) :
    ∀ n i, bound ≤ i + n → 2 ≤ i → (scan ia s bound i).isSome := by
  intro n
  induction n with
  | zero =>
    intro i hbound _
    rw [scan_stop (by omega)]
    rfl
  | succ k ih =>
    intro i hbound h2
    by_cases hi : i < bound
    · have h0 : i < s.length := by omega
      have hm1 : i - 1 < s.length := by omega
      have hm2 : i - 2 < s.length := by omega
      have hp1 : i + 1 < s.length := by omega
      have hp2 : i + 2 < s.length := by omega
      by_cases hacc : shapeAccept (s.get ⟨i - 2, hm2⟩) (s.get ⟨i - 1, hm1⟩)
          (s.get ⟨i, h0⟩) (s.get ⟨i + 1, hp1⟩) (s.get ⟨i + 2, hp2⟩)
      · rw [scan_accept hi (List.getElem?_eq_getElem h0) (List.getElem?_eq_getElem hm1)
          (List.getElem?_eq_getElem hp1) (List.getElem?_eq_getElem hm2)
          (List.getElem?_eq_getElem hp2) hacc]
        rw [Option.isSome_map']
        exact ih (i + 2) (by omega) (by omega)
      · rw [scan_reject hi (List.getElem?_eq_getElem h0) (List.getElem?_eq_getElem hm1)
          (List.getElem?_eq_getElem hp1) (List.getElem?_eq_getElem hm2)
          (List.getElem?_eq_getElem hp2) hacc]
        exact ih (i + 1) (by omega) (by omega)
    · rw [scan_stop hi]
      rfl

/-- Totality of `pick` on every spectrum with at least 2 (and a
representable number of) samples. -/
theorem pick_isSome (p : Param) (s : MSSpectrum) (h2 : 2 ≤ s.peaks.length)
    (hlt : s.peaks.length < 2 ^ 64) : (pick p s).isSome := by
  have hb : sizeSub2 s.peaks.length = s.peaks.length - 2 := sizeSub2_eq h2 hlt
  simp only [pick, hb]
  rw [Option.isSome_map']
  exact scan_isSome _ _ _ (by omega) s.peaks.length 2 (by omega) le_rfl

/-- Monadic map over `Option`: when every element maps to `some`, the
whole list maps to `some`, preserving length and positions. -/
theorem mapM_option {α β : Type} (f : α → Option β) (l : List α)
    (h : ∀ a ∈ l, (f a).isSome) :
    ∃ out, l.mapM f = some out ∧ out.length = l.length ∧
      ∀ i (hi : i < l.length), out[i]? = f (l.get ⟨i, hi⟩) := by
  induction l with
  | nil => exact ⟨[], rfl, rfl, fun i hi => by simp at hi⟩
  | cons a t ih =>
    obtain ⟨b, hb⟩ := Option.isSome_iff_exists.mp (h a (List.mem_cons_self a t))
    obtain ⟨out, hout, hlen, hget⟩ := ih (fun x hx => h x (List.mem_cons_of_mem a hx))
    refine ⟨b :: out, ?_, by simp [hlen], ?_⟩
    · simp only [List.mapM_cons, hb, hout, Option.some_bind]
      rfl
    · intro i hi
      cases i with
      | zero => simp [hb]
      | succ j => simpa using hget j (by simpa using hi)

/-- The pass-through condition of the driver, as a proposition. -/
theorem passCond_iff (p : Param) (s : MSSpectrum) :
    (toBool (p "ms1_only") && (s.msLevel != 1)) = true ↔
      (toBool (p "ms1_only") = true ∧ s.msLevel ≠ 1) := by
  simp [Bool.and_eq_true, bne_iff_ne]

end Evaluations

section RealFit

/-- The scaled Gaussian density is positive for positive σ and area. -/
theorem gaussAt_pos {σ A : ℝ} (hσ : 0 < σ) (hA : 0 < A) (m x : ℝ) :
    0 < gaussAt m σ A x := by
  simp only [gaussAt]
  positivity

/-- Logarithm of the scaled Gaussian density: an exact quadratic in x. -/
theorem log_gaussAt {σ A : ℝ} (hσ : 0 < σ) (hA : 0 < A) (m x : ℝ) :
    Real.log (gaussAt m σ A x) =
      Real.log (A / Real.sqrt (2 * Real.pi * σ * σ)) - (x - m) * (x - m) / (2 * σ * σ) := by
  have h1 : A / Real.sqrt (2 * Real.pi * σ * σ) ≠ 0 := by positivity
  simp only [gaussAt]
  rw [Real.log_mul h1 (Real.exp_ne_zero _), Real.log_exp]
  ring

/-- On exact Gaussian samples, `denom` evaluates to
`(x1-x3)(x2-x1)(x3-x2) / (2σ²)`. -/
theorem tpgDenom_gauss {σ A : ℝ} (hσ : 0 < σ) (hA : 0 < A) (m x1 x2 x3 : ℝ) :
    tpgDenom x1 x2 x3 (gaussAt m σ A x1) (gaussAt m σ A x2) (gaussAt m σ A x3) =
      (x1 - x3) * (x2 - x1) * (x3 - x2) / (2 * σ * σ) := by
  have hy1 := gaussAt_pos hσ hA m x1
  have hy2 := gaussAt_pos hσ hA m x2
  have hy3 := gaussAt_pos hσ hA m x3
  have hss : (2 * σ * σ : ℝ) ≠ 0 := by positivity
  simp only [tpgDenom]
  rw [Real.log_mul (by positivity) (by positivity),
    Real.log_mul (by positivity) (by positivity),
    Real.log_rpow hy1, Real.log_rpow hy2, Real.log_rpow hy3,
    log_gaussAt hσ hA, log_gaussAt hσ hA, log_gaussAt hσ hA]
  field_simp
  ring

/-- On exact Gaussian samples, the numerator logarithm of `mu` evaluates
to `2m · (x1-x3)(x2-x1)(x3-x2) / (2σ²)`. -/
theorem tpgNum_gauss {σ A : ℝ} (hσ : 0 < σ) (hA : 0 < A) (m x1 x2 x3 : ℝ) :
    Real.log ((gaussAt m σ A x1) ^ (x3 * x3 - x2 * x2) *
        (gaussAt m σ A x2) ^ (x1 * x1 - x3 * x3) *
        (gaussAt m σ A x3) ^ (x2 * x2 - x1 * x1)) =
      2 * m * ((x1 - x3) * (x2 - x1) * (x3 - x2)) / (2 * σ * σ) := by
  have hy1 := gaussAt_pos hσ hA m x1
  have hy2 := gaussAt_pos hσ hA m x2
  have hy3 := gaussAt_pos hσ hA m x3
  have hss : (2 * σ * σ : ℝ) ≠ 0 := by positivity
  rw [Real.log_mul (by positivity) (by positivity),
    Real.log_mul (by positivity) (by positivity),
    Real.log_rpow hy1, Real.log_rpow hy2, Real.log_rpow hy3,
    log_gaussAt hσ hA, log_gaussAt hσ hA, log_gaussAt hσ hA]
  field_simp
  ring

/-- On exact Gaussian samples with pairwise distinct x, the fitted mean
is exactly the Gaussian's mean. -/
theorem tpgMu_gauss {σ A : ℝ} (hσ : 0 < σ) (hA : 0 < A) (m x1 x2 x3 : ℝ)
    (hP : (x1 - x3) * (x2 - x1) * (x3 - x2) ≠ 0) :
    tpgMu x1 x2 x3 (gaussAt m σ A x1) (gaussAt m σ A x2) (gaussAt m σ A x3) = m := by
  have hss : (2 * σ * σ : ℝ) ≠ 0 := by positivity
  simp only [tpgMu]
  rw [tpgNum_gauss hσ hA, tpgDenom_gauss hσ hA]
  field_simp

/-- On exact Gaussian samples with pairwise distinct x, the fitted sigma
is exactly the Gaussian's standard deviation. -/
theorem tpgSigma_gauss {σ A : ℝ} (hσ : 0 < σ) (hA : 0 < A) (m x1 x2 x3 : ℝ)
    (hP : (x1 - x3) * (x2 - x1) * (x3 - x2) ≠ 0) :
    tpgSigma x1 x2 x3 (gaussAt m σ A x1) (gaussAt m σ A x2) (gaussAt m σ A x3) = σ := by
  have hss : (2 * σ * σ : ℝ) ≠ 0 := by positivity
  simp only [tpgSigma]
  rw [tpgDenom_gauss hσ hA]
  rw [show 1 / 2 * ((x1 - x3) * (x2 - x1) * (x3 - x2)) /
      ((x1 - x3) * (x2 - x1) * (x3 - x2) / (2 * σ * σ)) = σ * σ by
    field_simp
    ring]
  exact Real.sqrt_mul_self hσ.le

/-- On exact Gaussian samples with pairwise distinct x, the fitted area
is exactly the Gaussian's integral. -/
theorem tpgArea_gauss {σ A : ℝ} (hσ : 0 < σ) (hA : 0 < A) (m x1 x2 x3 : ℝ)
    (hP : (x1 - x3) * (x2 - x1) * (x3 - x2) ≠ 0) :
    tpgArea x1 x2 x3 (gaussAt m σ A x1) (gaussAt m σ A x2) (gaussAt m σ A x3) = A := by
  have hs2 : (0 : ℝ) < 2 * Real.pi * σ * σ := by positivity
  have hsqrt : (0 : ℝ) < Real.sqrt (2 * Real.pi * σ * σ) := Real.sqrt_pos.mpr hs2
  have hC : (0 : ℝ) < A / Real.sqrt (2 * Real.pi * σ * σ) := by positivity
  simp only [tpgArea]
  rw [tpgSigma_gauss hσ hA m x1 x2 x3 hP, tpgMu_gauss hσ hA m x1 x2 x3 hP]
  have hprod : gaussAt m σ A x1 * gaussAt m σ A x2 * gaussAt m σ A x3 =
      (A / Real.sqrt (2 * Real.pi * σ * σ)) ^ (3 : ℕ) *
        Real.exp (-((x1 - m) * (x1 - m) + (x2 - m) * (x2 - m) + (x3 - m) * (x3 - m)) /
          (2 * σ * σ)) := by
    simp only [gaussAt]
    rw [show ∀ a b c d e f : ℝ, a * b * (c * d) * (e * f) = a * c * e * (b * (d * f)) from
      fun a b c d e f => by ring]
    rw [← Real.exp_add, ← Real.exp_add]
    congr 1
    · ring
    · congr 1
      ring
  rw [hprod, Real.mul_rpow (by positivity) (Real.exp_nonneg _),
    ← Real.rpow_natCast (A / Real.sqrt (2 * Real.pi * σ * σ)) 3,
    ← Real.rpow_mul hC.le,
    show ((3 : ℕ) : ℝ) * ((1 : ℝ) / 3) = 1 by norm_num, Real.rpow_one,
    Real.rpow_def_of_pos (Real.exp_pos _), Real.log_exp]
  have hexp : Real.exp (-((x1 - m) * (x1 - m) + (x2 - m) * (x2 - m) +
        (x3 - m) * (x3 - m)) / (2 * σ * σ) * (1 / 3)) *
      Real.exp (((x1 - m) * (x1 - m) + (x2 - m) * (x2 - m) + (x3 - m) * (x3 - m)) /
        (6 * σ * σ)) = 1 := by
    rw [← Real.exp_add,
      show -((x1 - m) * (x1 - m) + (x2 - m) * (x2 - m) + (x3 - m) * (x3 - m)) /
          (2 * σ * σ) * (1 / 3) +
        ((x1 - m) * (x1 - m) + (x2 - m) * (x2 - m) + (x3 - m) * (x3 - m)) /
          (6 * σ * σ) = 0 from by ring]
    exact Real.exp_zero
  rw [show ∀ s c eu ev : ℝ, s * (c * eu) * ev = s * c * (eu * ev) from
    fun s c eu ev => by ring]
  rw [hexp, mul_one,
    mul_comm (Real.sqrt (2 * Real.pi * σ * σ)) (A / Real.sqrt (2 * Real.pi * σ * σ)),
    div_mul_cancel₀ A hsqrt.ne']

/-- Bridge between the floating-point transcription `computeTPG` and the
real-number formulas `tpgMu`/`tpgSigma`/`tpgArea`: on finite samples with
positive intensities, a nonzero `denom` and a positive sigma radicand,
every intermediate stays finite and the fit is reported valid. -/
theorem computeTPG_finite (x1 x2 x3 y1 y2 y3 : ℝ)
    (hy1 : 0 < y1) (hy2 : 0 < y2) (hy3 : 0 < y3)
    (hd : tpgDenom x1 x2 x3 y1 y2 y3 ≠ 0)
    (hrad : 0 < 1 / 2 * ((x1 - x3) * (x2 - x1) * (x3 - x2)) / tpgDenom x1 x2 x3 y1 y2 y3) :
    computeTPG ⟨.finite x1, .finite y1⟩ ⟨.finite x2, .finite y2⟩ ⟨.finite x3, .finite y3⟩ =
      ⟨.finite (tpgMu x1 x2 x3 y1 y2 y3), .finite (tpgSigma x1 x2 x3 y1 y2 y3),
       .finite (tpgArea x1 x2 x3 y1 y2 y3), true⟩ := by
  have hp1 : (0 : ℝ) < y1 ^ (x3 - x2) * y2 ^ (x1 - x3) * y3 ^ (x2 - x1) := by positivity
  have hp2 : (0 : ℝ) < y1 ^ (x3 * x3 - x2 * x2) * y2 ^ (x1 * x1 - x3 * x3) *
      y3 ^ (x2 * x2 - x1 * x1) := by positivity
  have hyp : (0 : ℝ) < y1 * y2 * y3 := by positivity
  have h3 : (3 : ℝ) ≠ 0 := by norm_num
  have hsg : 0 < tpgSigma x1 x2 x3 y1 y2 y3 := Real.sqrt_pos.mpr hrad
  have harg : (0 : ℝ) ≤ 2 * Real.pi * tpgSigma x1 x2 x3 y1 y2 y3 *
      tpgSigma x1 x2 x3 y1 y2 y3 := by positivity
  have h6 : 6 * tpgSigma x1 x2 x3 y1 y2 y3 * tpgSigma x1 x2 x3 y1 y2 y3 ≠ 0 := by positivity
  simp only [tpgSigma, tpgDenom] at hsg harg h6
  simp only [tpgDenom] at hd hrad
  simp only [computeTPG, tpgMu, tpgSigma, tpgArea, tpgDenom,
    FP.sub_finite, FP.mul_finite, FP.add_finite,
    FP.pow_finite_pos hy1, FP.pow_finite_pos hy2, FP.pow_finite_pos hy3,
    FP.pow_finite_pos hyp, FP.log_finite_pos hp1, FP.log_finite_pos hp2,
    FP.div_finite h3, FP.div_finite hd, FP.div_finite h6,
    FP.sqrt_finite_nonneg hrad.le, FP.sqrt_finite_nonneg harg,
    FP.exp_finite, FP.ieeeNe_finite_pinf]

end RealFit

section Claims

/-- C1 (amended): for every input spectrum on which `pick` completes, the
output's retention time, MS level, name, settings and annotations equal
the input's, but the output's type tag is set to `PEAKS` regardless of
the input's type tag. -/
theorem pick_metadata_copy (p : Param) (input out : MSSpectrum)
    (h : pick p input = some out) :
    out.rt = input.rt ∧ out.msLevel = input.msLevel ∧ out.name = input.name ∧
    out.settings = input.settings ∧ out.metaInfo = input.metaInfo ∧
    out.stype = SpectrumType.PEAKS := by
  simp only [pick, Option.map_eq_some'] at h
  obtain ⟨pks, hscan, rfl⟩ := h
  exact ⟨rfl, rfl, rfl, rfl, rfl, rfl⟩

/-- C1 counterexample: on the raw-data-tagged input `specRaw`, the output
type tag is `PEAKS`, not the input's tag — the type tag is not copied
verbatim. -/
theorem pick_type_tag_not_copied :
    pick pDefault specRaw = some outRaw ∧ outRaw.stype ≠ specRaw.stype :=
  ⟨pick_specRaw, fun h => by simp [outRaw, specRaw] at h⟩

/-- C1 witness: the metadata-copy theorem applied to the concrete run on
`specRaw`. -/
theorem pick_metadata_copy_witness :
    outRaw.rt = specRaw.rt ∧ outRaw.msLevel = specRaw.msLevel ∧
    outRaw.name = specRaw.name ∧ outRaw.settings = specRaw.settings ∧
    outRaw.metaInfo = specRaw.metaInfo ∧ outRaw.stype = SpectrumType.PEAKS :=
  pick_metadata_copy pDefault specRaw outRaw pick_specRaw

/-- C3: on a spectrum with zero samples, the unsigned loop bound
`input.size() - 2` wraps around, the scan loop runs, and its first window
read `input[2]` is out of bounds (modelled as `none`) — contradicting the
claim that `pick` terminates normally with zero peaks for all inputs of
at most 4 samples.  For 2 to 4 samples the loop indeed never runs and the
output carries copied metadata and zero peaks. -/
theorem pick_short_input_oob :
    pick pDefault specEmpty = none ∧
      pick pDefault specFour = some outFour := by
  refine ⟨pick_empty_eval, ?_⟩
  have h : sizeSub2 specFour.peaks.length = 2 := by
    simp [specFour, sizeSub2]
  simp only [pick, h]
  rw [scan_stop (by omega)]
  rfl

/-- C9: `pick` and `pickExperiment` are deterministic functions of the
input and the two resolved configuration values — two parameter stores
that agree on `intensity_type` and `ms1_only` produce identical outputs
on every spectrum and every experiment. -/
theorem pick_deterministic (p1 p2 : Param)
    (hit : p1 "intensity_type" = p2 "intensity_type")
    (hms : p1 "ms1_only" = p2 "ms1_only") :
    (∀ s, pick p1 s = pick p2 s) ∧
      ∀ e, pickExperiment p1 e = pickExperiment p2 e := by
  have hp : ∀ s, pick p1 s = pick p2 s := fun s => by simp only [pick, hit]
  refine ⟨hp, fun e => ?_⟩
  simp only [pickExperiment, hms]
  have harm : (fun s : MSSpectrum =>
        if toBool (p2 "ms1_only") && (s.msLevel != 1) then some s else pick p1 s)
      = (fun s : MSSpectrum =>
        if toBool (p2 "ms1_only") && (s.msLevel != 1) then some s else pick p2 s) := by
    funext s
    rw [hp s]
  rw [harm]

/-- C9 witness: the determinism theorem applied to two concrete parameter
stores that agree on the two read keys but differ on another key. -/
theorem pick_deterministic_witness :
    (∀ s, pick pDefault s = pick pOther s) ∧
      ∀ e, pickExperiment pDefault e = pickExperiment pOther e :=
  pick_deterministic pDefault pOther rfl rfl

/-- Evaluation of the fit on three points that are collinear in
(x, log y) (equal intensities 2 at m/z 0, 1, 2): `denom` is exactly 0,
`mu = 0.5 * (0/0) = NaN`, `sigma = sqrt(-1/0) = sqrt(-inf) = NaN`,
`area = NaN`, and the guard `area != +inf` nevertheless returns `true`. -/
theorem computeTPG_collinear :
    computeTPG ⟨.finite 0, .finite 2⟩ ⟨.finite 1, .finite 2⟩ ⟨.finite 2, .finite 2⟩ =
      ⟨.nan, .nan, .nan, true⟩ := by
  have e1 : (2 : ℝ) ^ (-2 : ℝ) = 1 / 4 := by
    rw [show (-2 : ℝ) = ((-2 : ℤ) : ℝ) by norm_num, Real.rpow_intCast]
    norm_num
  have e2 : (2 : ℝ) ^ (3 : ℝ) = 8 := by
    rw [show (3 : ℝ) = ((3 : ℤ) : ℝ) by norm_num, Real.rpow_intCast]
    norm_num
  have e3 : (2 : ℝ) ^ (-4 : ℝ) = 1 / 16 := by
    rw [show (-4 : ℝ) = ((-4 : ℤ) : ℝ) by norm_num, Real.rpow_intCast]
    norm_num
  norm_num [computeTPG, FP.sub, FP.add, FP.neg, FP.mul, FP.div, FP.pow, FP.log,
    FP.sqrt, FP.exp, FP.ieeeNe, FP.ieeeEq, e1, e2, e3, Real.log_one]

/-- C2: on the collinear-in-log triplet (0,2), (1,2), (2,2) the code
computes `area = NaN` yet reports `valid = true`, because the guard tests
only `area != +infinity` and NaN passes that comparison — contradicting
the claimed acceptance rule (`valid` exactly when the area is finite, and
`valid = false` on collinear points). -/
theorem collinear_fit_reported_valid :
    (computeTPG ⟨.finite 0, .finite 2⟩ ⟨.finite 1, .finite 2⟩ ⟨.finite 2, .finite 2⟩).area
        = .nan ∧
    (computeTPG ⟨.finite 0, .finite 2⟩ ⟨.finite 1, .finite 2⟩ ⟨.finite 2, .finite 2⟩).valid
        = true := by
  rw [computeTPG_collinear]
  exact ⟨rfl, rfl⟩

/-- C10: the fit's acceptance flag is literally the IEEE comparison
`area != +infinity`; NaN and `-infinity` both pass that comparison, and
concretely the collinear triplet (0,2), (1,2), (2,2) yields a NaN area
that is reported valid (the scan loop applies no further finiteness check
before emitting, as the C6 emission law shows). -/
theorem validity_guard_gap :
    (∀ p1 p2 p3 : FPPeak,
      (computeTPG p1 p2 p3).valid = FP.ieeeNe (computeTPG p1 p2 p3).area .pinf) ∧
    FP.ieeeNe .nan .pinf = true ∧ FP.ieeeNe .ninf .pinf = true ∧
    ((computeTPG ⟨.finite 0, .finite 2⟩ ⟨.finite 1, .finite 2⟩ ⟨.finite 2, .finite 2⟩).area
        = .nan ∧
     (computeTPG ⟨.finite 0, .finite 2⟩ ⟨.finite 1, .finite 2⟩ ⟨.finite 2, .finite 2⟩).valid
        = true) := by
  refine ⟨fun p1 p2 p3 => rfl, rfl, rfl, ?_⟩
  rw [computeTPG_collinear]
  exact ⟨rfl, rfl⟩

/-- C7: for any three samples taken exactly from the scaled Gaussian with
parameters (m, σ, A) at pairwise distinct x positions, the triplet fit
recovers m, σ and A exactly (over the reals) and reports the fit valid. -/
theorem fit_exact_recovery (x1 x2 x3 m σ A : ℝ)
    (h12 : x1 ≠ x2) (h23 : x2 ≠ x3) (h13 : x1 ≠ x3) (hσ : 0 < σ) (hA : 0 < A) :
    computeTPG ⟨.finite x1, .finite (gaussAt m σ A x1)⟩
        ⟨.finite x2, .finite (gaussAt m σ A x2)⟩
        ⟨.finite x3, .finite (gaussAt m σ A x3)⟩ =
      ⟨.finite m, .finite σ, .finite A, true⟩ := by
  have hP : (x1 - x3) * (x2 - x1) * (x3 - x2) ≠ 0 :=
    mul_ne_zero (mul_ne_zero (sub_ne_zero.mpr h13) (sub_ne_zero.mpr h12.symm))
      (sub_ne_zero.mpr h23.symm)
  have hss : (2 * σ * σ : ℝ) ≠ 0 := by positivity
  have hd : tpgDenom x1 x2 x3 (gaussAt m σ A x1) (gaussAt m σ A x2)
      (gaussAt m σ A x3) ≠ 0 := by
    rw [tpgDenom_gauss hσ hA]
    exact div_ne_zero hP hss
  have hrad : 0 < 1 / 2 * ((x1 - x3) * (x2 - x1) * (x3 - x2)) /
      tpgDenom x1 x2 x3 (gaussAt m σ A x1) (gaussAt m σ A x2) (gaussAt m σ A x3) := by
    rw [tpgDenom_gauss hσ hA,
      show 1 / 2 * ((x1 - x3) * (x2 - x1) * (x3 - x2)) /
        ((x1 - x3) * (x2 - x1) * (x3 - x2) / (2 * σ * σ)) = σ * σ from by
          field_simp
          ring]
    positivity
  rw [computeTPG_finite x1 x2 x3 _ _ _ (gaussAt_pos hσ hA m x1) (gaussAt_pos hσ hA m x2)
      (gaussAt_pos hσ hA m x3) hd hrad,
    tpgMu_gauss hσ hA m x1 x2 x3 hP, tpgSigma_gauss hσ hA m x1 x2 x3 hP,
    tpgArea_gauss hσ hA m x1 x2 x3 hP]

/-- C7 witness: three exact samples of the scaled Gaussian with mean 0,
sigma 1 and area 1 at x = -1, 0, 1 recover (0, 1, 1) exactly, with a
valid fit. -/
theorem fit_exact_recovery_witness :
    computeTPG ⟨.finite (-1), .finite (gaussAt 0 1 1 (-1))⟩
        ⟨.finite 0, .finite (gaussAt 0 1 1 0)⟩
        ⟨.finite 1, .finite (gaussAt 0 1 1 1)⟩ =
      ⟨.finite 0, .finite 1, .finite 1, true⟩ :=
  fit_exact_recovery (-1) 0 1 0 1 1 (by norm_num) (by norm_num) (by norm_num)
    one_pos one_pos

/-- C4: on a window of five finite-valued samples, the code's acceptance
condition holds exactly when the specification's condition does: all five
intensities exceed 1.0, the four adjacent spacings are each strictly
below 1.5 times the minimum of the two central spacings, and the
intensities ascend strictly toward the apex on both flanks. -/
theorem shape_test_characterization
    (am2 im2 am1 im1 a0 i0 ap1 ip1 ap2 ip2 : ℝ) :
    shapeAccept ⟨.finite am2, .finite im2⟩ ⟨.finite am1, .finite im1⟩
        ⟨.finite a0, .finite i0⟩ ⟨.finite ap1, .finite ip1⟩ ⟨.finite ap2, .finite ip2⟩ ↔
      specAccept (am2, im2) (am1, im1) (a0, i0) (ap1, ip1) (ap2, ip2) := by
  simp only [shapeAccept, specAccept, FP.sub_finite, FP.fabs_finite, FP.Lt_finite]
  by_cases h : |a0 - am1| < |ap1 - a0|
  · simp only [if_pos h, FP.mul_finite, FP.Lt_finite, min_eq_left h.le]
    tauto
  · simp only [if_neg h, FP.mul_finite, FP.Lt_finite, min_eq_right (not_lt.mp h)]
    tauto

/-- The acceptance condition holds on the 5-point core of `fivePts`. -/
theorem shapeAccept_core :
    shapeAccept ⟨.finite 0, .finite 2⟩ ⟨.finite 1, .finite 4⟩ ⟨.finite 2, .finite 8⟩
      ⟨.finite 3, .finite 4⟩ ⟨.finite 4, .finite 2⟩ := by
  simp only [shapeAccept, FP.sub_finite, FP.fabs_finite, FP.Lt_finite, FP.mul_finite]
  norm_num

/-- C5: whenever the scan loop examines an in-bounds window at index `i`,
if the candidate is accepted the rest of the output comes from continuing
at `i + 2` (index `i + 1` is never examined as an apex), and if the
candidate is rejected the loop continues at exactly `i + 1`. -/
theorem scan_advance (ia : Bool) (s : List FPPeak) (bound i : ℕ)
    (c l1 r1 l2 r2 : FPPeak) (hlt : i < bound)
    (hc : s[i]? = some c) (hl1 : s[i - 1]? = some l1) (hr1 : s[i + 1]? = some r1)
    (hl2 : s[i - 2]? = some l2) (hr2 : s[i + 2]? = some r2) :
    (shapeAccept l2 l1 c r1 r2 →
      ∃ emitted, scan ia s bound i = Option.map (emitted ++ ·) (scan ia s bound (i + 2))) ∧
    (¬ shapeAccept l2 l1 c r1 r2 → scan ia s bound i = scan ia s bound (i + 1)) := by
  constructor
  · intro hacc
    exact ⟨_, scan_accept hlt hc hl1 hr1 hl2 hr2 hacc⟩
  · intro hrej
    exact scan_reject hlt hc hl1 hr1 hl2 hr2 hrej

/-- C5 witness: on `fivePts` the window at `i = 2` is accepted and the
scan continues at index 4. -/
theorem scan_advance_witness :
    ∃ emitted, scan false fivePts 3 2 = Option.map (emitted ++ ·) (scan false fivePts 3 4) :=
  (scan_advance false fivePts 3 2 ⟨.finite 2, .finite 8⟩ ⟨.finite 1, .finite 4⟩
      ⟨.finite 3, .finite 4⟩ ⟨.finite 0, .finite 2⟩ ⟨.finite 4, .finite 2⟩
      (by norm_num) rfl rfl rfl rfl rfl).1 shapeAccept_core

/-- At `x = mu` the scaled Gaussian evaluates to `area / sqrt(2π·σ²)`
(the exponential factor is `exp 0 = 1`), provided `σ ≠ 0`. -/
theorem computeScaledGaussian_apex {σ : ℝ} (hσ : σ ≠ 0) (m A : ℝ) :
    computeScaledGaussian (.finite m) (.finite m) (.finite σ) (.finite A) =
      .finite (A / Real.sqrt (2 * Real.pi * σ * σ)) := by
  have hss : (0 : ℝ) < σ * σ := mul_self_pos.mpr hσ
  have hs2 : (0 : ℝ) < 2 * Real.pi * σ * σ := by nlinarith [Real.pi_pos]
  have hsqrt : Real.sqrt (2 * Real.pi * σ * σ) ≠ 0 := (Real.sqrt_pos.mpr hs2).ne'
  have hden : (2 * σ * σ : ℝ) ≠ 0 := by positivity
  simp only [computeScaledGaussian, FP.sub_finite, FP.mul_finite, FP.neg_finite,
    sub_self, mul_zero, zero_mul, neg_zero, FP.sqrt_finite_nonneg hs2.le,
    FP.div_finite hden, FP.div_finite hsqrt, zero_div, FP.exp_finite,
    Real.exp_zero, mul_one]

/-- C6: whenever the scan loop accepts a candidate at index `i`, the
fitter is invoked on exactly the inner triplet `(input[i-1], input[i],
input[i+1])`, and — when the fit reports valid — exactly one peak is
appended whose m/z is the fitted `mu` and whose intensity is the fitted
`area` in peak-area mode and `computeScaledGaussian(mu, mu, sigma, area)`
otherwise; moreover at `x = mu` the scaled Gaussian equals
`area / sqrt(2π·σ²)` for every nonzero σ. -/
theorem scan_emit (ia : Bool) (s : List FPPeak) (bound i : ℕ)
    (c l1 r1 l2 r2 : FPPeak) (hlt : i < bound)
    (hc : s[i]? = some c) (hl1 : s[i - 1]? = some l1) (hr1 : s[i + 1]? = some r1)
    (hl2 : s[i - 2]? = some l2) (hr2 : s[i + 2]? = some r2)
    (hacc : shapeAccept l2 l1 c r1 r2) :
    (scan ia s bound i =
      Option.map (fun rest =>
        (if (computeTPG l1 c r1).valid then
          [({ mz := (computeTPG l1 c r1).mu,
              intensity := if ia then (computeTPG l1 c r1).area else
                computeScaledGaussian (computeTPG l1 c r1).mu (computeTPG l1 c r1).mu
                  (computeTPG l1 c r1).sigma (computeTPG l1 c r1).area } : FPPeak)]
        else []) ++ rest) (scan ia s bound (i + 2))) ∧
    ∀ m σ A : ℝ, σ ≠ 0 →
      computeScaledGaussian (.finite m) (.finite m) (.finite σ) (.finite A) =
        .finite (A / Real.sqrt (2 * Real.pi * σ * σ)) :=
  ⟨scan_accept hlt hc hl1 hr1 hl2 hr2 hacc,
   fun _ _ _ hσ => computeScaledGaussian_apex hσ _ _⟩

/-- C6 witness: the emission theorem applied to the accepted window of
`fivePts` at `i = 2` (fitting the inner triplet at m/z 1, 2, 3), together
with the apex-height evaluation at `σ = 1`. -/
theorem scan_emit_witness :
    (scan false fivePts 3 2 =
      Option.map (fun rest =>
        (if (computeTPG ⟨.finite 1, .finite 4⟩ ⟨.finite 2, .finite 8⟩
              ⟨.finite 3, .finite 4⟩).valid then
          [({ mz := (computeTPG ⟨.finite 1, .finite 4⟩ ⟨.finite 2, .finite 8⟩
                ⟨.finite 3, .finite 4⟩).mu,
              intensity := if false then (computeTPG ⟨.finite 1, .finite 4⟩
                  ⟨.finite 2, .finite 8⟩ ⟨.finite 3, .finite 4⟩).area else
                computeScaledGaussian
                  (computeTPG ⟨.finite 1, .finite 4⟩ ⟨.finite 2, .finite 8⟩
                    ⟨.finite 3, .finite 4⟩).mu
                  (computeTPG ⟨.finite 1, .finite 4⟩ ⟨.finite 2, .finite 8⟩
                    ⟨.finite 3, .finite 4⟩).mu
                  (computeTPG ⟨.finite 1, .finite 4⟩ ⟨.finite 2, .finite 8⟩
                    ⟨.finite 3, .finite 4⟩).sigma
                  (computeTPG ⟨.finite 1, .finite 4⟩ ⟨.finite 2, .finite 8⟩
                    ⟨.finite 3, .finite 4⟩).area } : FPPeak)]
        else []) ++ rest) (scan false fivePts 3 4)) ∧
    ∀ m σ A : ℝ, σ ≠ 0 →
      computeScaledGaussian (.finite m) (.finite m) (.finite σ) (.finite A) =
        .finite (A / Real.sqrt (2 * Real.pi * σ * σ)) :=
  scan_emit false fivePts 3 2 ⟨.finite 2, .finite 8⟩ ⟨.finite 1, .finite 4⟩
    ⟨.finite 3, .finite 4⟩ ⟨.finite 0, .finite 2⟩ ⟨.finite 4, .finite 2⟩
    (by norm_num) rfl rfl rfl rfl rfl shapeAccept_core

/-- C8 (amended): provided every spectrum that is actually picked (i.e.
not passed through) has at least 2 samples (and a `size_t`-representable
count), `pickExperiment` completes with as many output spectra as input
spectra; with `ms1_only` set, every spectrum whose MS level is not 1 is
copied unchanged to the same index, and every other spectrum is replaced
by `pick` of it. -/
theorem pickExperiment_passthrough (p : Param) (input : MSExperiment)
    (hlen : ∀ s ∈ input.spectra,
      ¬(toBool (p "ms1_only") = true ∧ s.msLevel ≠ 1) →
        2 ≤ s.peaks.length ∧ s.peaks.length < 2 ^ 64) :
    ∃ out, pickExperiment p input = some out ∧
      out.spectra.length = input.spectra.length ∧
      ∀ i (hi : i < input.spectra.length),
        (toBool (p "ms1_only") = true ∧ (input.spectra.get ⟨i, hi⟩).msLevel ≠ 1 →
          out.spectra[i]? = some (input.spectra.get ⟨i, hi⟩)) ∧
        (¬(toBool (p "ms1_only") = true ∧ (input.spectra.get ⟨i, hi⟩).msLevel ≠ 1) →
          out.spectra[i]? = pick p (input.spectra.get ⟨i, hi⟩)) := by
  have hall : ∀ s ∈ input.spectra,
      ((fun s => if toBool (p "ms1_only") && (s.msLevel != 1) then some s
        else pick p s) s).isSome := by
    intro s hs
    by_cases hcond : (toBool (p "ms1_only") && (s.msLevel != 1)) = true
    · simp [hcond]
    · have hsz := hlen s hs (fun hp => hcond ((passCond_iff p s).mpr hp))
      simp only [if_neg hcond]
      exact pick_isSome p s hsz.1 hsz.2
  obtain ⟨out, hout, hlenq, hget⟩ := mapM_option _ _ hall
  refine ⟨⟨input.expSettings, out⟩, ?_, hlenq, ?_⟩
  · simp only [pickExperiment, hout]
    rfl
  · intro i hi
    constructor
    · intro hpass
      rw [hget i hi, if_pos ((passCond_iff p _).mpr hpass)]
    · intro hrej
      rw [hget i hi, if_neg (fun hb => hrej ((passCond_iff p _).mp hb))]

/-- C8 counterexample: on an experiment holding a single empty level-1
spectrum (with `ms1_only` unset), the inner `pick` runs into the wrapped
loop bound and reads out of bounds, so `pickExperiment` produces no
output experiment at all. -/
theorem pickExperiment_oob :
    pickExperiment pDefault expBad = none := by
  simp only [pickExperiment, expBad, List.mapM_cons, toBool, pDefault]
  simp [pick_empty_eval]

/-- C8 witness: on the two-spectrum experiment `expMixed` with `ms1_only`
set, the MS2 spectrum passes through unchanged and the MS1 spectrum is
picked. -/
theorem pickExperiment_passthrough_witness :
    ∃ out, pickExperiment pMs1 expMixed = some out ∧
      out.spectra.length = expMixed.spectra.length ∧
      ∀ i (hi : i < expMixed.spectra.length),
        (toBool (pMs1 "ms1_only") = true ∧ (expMixed.spectra.get ⟨i, hi⟩).msLevel ≠ 1 →
          out.spectra[i]? = some (expMixed.spectra.get ⟨i, hi⟩)) ∧
        (¬(toBool (pMs1 "ms1_only") = true ∧ (expMixed.spectra.get ⟨i, hi⟩).msLevel ≠ 1) →
          out.spectra[i]? = pick pMs1 (expMixed.spectra.get ⟨i, hi⟩)) :=
  pickExperiment_passthrough pMs1 expMixed (by
    intro s hs hcond
    simp only [expMixed, List.mem_cons, List.mem_singleton] at hs
    rcases hs with rfl | rfl | hfalse
    · exact absurd ⟨rfl, by simp [specRaw]⟩ hcond
    · refine ⟨by simp [specFour], by simp [specFour]⟩
    · simp at hfalse)

end Claims

end OpenMS
